import Mathlib

/-!
Verification of the Monolith task-execution runtime (memory pool, metric
registry, typed IPC result messages, and the cooperative priority scheduler).

The definitions below are a shallow embedding of the Python sources:
  src/monolith/memory.py     (MemoryPool, Region)
  src/monolith/metrics.py    (Counter, Gauge, the metric registry)
  src/monolith/ipc.py        (MessageType, Message, send)
  src/monolith/models.py     (TaskState, TaskMetadata, Task)
  src/monolith/scheduler.py  (Scheduler)

Modelling conventions:
  - Python dicts become association lists; dict assignment replaces an
    existing binding in place or appends a fresh one, dict deletion removes
    the binding, preserving insertion order like CPython dicts.
  - Python float timestamps, priorities and metric values become Int; the
    claims under study only compare and add these quantities, so the choice
    of a discrete totally ordered ring is immaterial.
  - bytearray contents become List Nat, zero-filled on allocation.
  - Exceptions become explicit error components: an operation that can raise
    returns its error (if any) together with the state as mutated up to the
    raise point, mirroring that Python objects keep in-place mutations that
    happened before an exception propagates.
  - The scheduler mutates Task objects held in its list; this is modelled by
    updating the (unique-id) entry of the task list in place.
  - The execute-step hook and completion predicate are the documented
    extension points of the Scheduler class; they are modelled as a Hooks
    record whose step may rewrite the task state and last_error fields (the
    fields the runtime contract lets a step mutate) or raise, and whose
    completion predicate inspects the task.  defaultHooks is exactly the
    code in scheduler.py: a no-op step and completion iff not WAITING.
  - time.time() values are passed in as explicit now arguments; the result
    multiprocessing queue is modelled by the emitted list plus an oracle
    Env.sendOk saying which send attempts succeed (queue.put raising is the
    only observable failure of ipc.send), and Env.overrun abstracts the
    wall-clock test elapsed_ms > quantum_ms of the finally block.
-/

namespace Monolith

/-- TaskState from models.py. -/
inductive TaskState where
  | PENDING
  | RUNNING
  | WAITING
  | DONE
  | FAILED
  | CANCELLED
deriving DecidableEq, Repr

/-- TaskMetadata from models.py.  The labels and resource_hints mappings are
omitted: no operation under study reads them.  The uuid4 id is modelled as a
Nat supplied by the environment at construction. -/
structure TaskMetadata where
  id : Nat
  owner : String
  priority : Int
  created_at : Int
  deadline : Option Int
deriving DecidableEq, Repr

/-- Task from models.py.  The opaque payload mapping is omitted: the
scheduler never inspects it. -/
structure Task where
  meta : TaskMetadata
  state : TaskState
  last_error : Option String
deriving DecidableEq, Repr

/-- Region from memory.py. -/
structure Region where
  id : String
  owner_task_id : String
  size : Int
  read_only : Bool
deriving DecidableEq, Repr

/-- Error kinds of MemoryErrorLogical, one per raise site in memory.py,
plus storageKeyMissing for the KeyError a direct storage lookup would raise
if regions and storage ever went out of sync. -/
inductive MemErr where
  | sizeNonPositive
  | outOfMemory
  | duplicateRegion
  | unknownRegion
  | readOnlyRegion
  | ownerMismatch
  | outOfBounds
  | storageKeyMissing
deriving DecidableEq, Repr

/-- Association-list lookup, modelling Python dict indexing. -/
def lookupA {α : Type} (k : String) : List (String × α) → Option α
  | [] => none
  | (k1, v) :: rest => if k1 = k then some v else lookupA k rest

/-- Association-list insert, modelling Python dict assignment d[k] = v:
replaces an existing binding in place, else appends. -/
def insertA {α : Type} (k : String) (v : α) : List (String × α) → List (String × α)
  | [] => [(k, v)]
  | (k1, v1) :: rest => if k1 = k then (k, v) :: rest else (k1, v1) :: insertA k v rest

/-- Association-list delete, modelling Python dict deletion del d[k]. -/
def eraseA {α : Type} (k : String) : List (String × α) → List (String × α)
  | [] => []
  | (k1, v1) :: rest => if k1 = k then rest else (k1, v1) :: eraseA k rest

/-- MemoryPool from memory.py: max_bytes, used_bytes, the regions dict and
the storage dict of backing buffers. -/
structure MemoryPool where
  max_bytes : Int
  used_bytes : Int
  regions : List (String × Region)
  storage : List (String × List Nat)
deriving DecidableEq, Repr

/-- MemoryPool.__init__. -/
def MemoryPool.init (max_bytes : Int) : MemoryPool :=
  { max_bytes := max_bytes, used_bytes := 0, regions := [], storage := [] }

/-- MemoryPool.alloc.  Checks size, capacity, duplicate id in source order,
then records the region, a zero-filled buffer, and the new used_bytes. -/
def MemoryPool.alloc (p : MemoryPool) (region_id owner_task_id : String) (size : Int) :
    Except MemErr Region × MemoryPool :=
  if size ≤ 0 then (Except.error MemErr.sizeNonPositive, p)
  else if p.max_bytes < p.used_bytes + size then (Except.error MemErr.outOfMemory, p)
  else match lookupA region_id p.regions with
    | some _ => (Except.error MemErr.duplicateRegion, p)
    | none =>
      let region : Region :=
        { id := region_id, owner_task_id := owner_task_id, size := size, read_only := false }
      (Except.ok region,
        { p with regions := insertA region_id region p.regions,
                 storage := insertA region_id (List.replicate size.toNat 0) p.storage,
                 used_bytes := p.used_bytes + size })

/-- MemoryPool.free: requires the region to exist and the requester to own
it, then drops size from used_bytes and deletes both dict entries. -/
def MemoryPool.free (p : MemoryPool) (region_id requester_task_id : String) :
    Option MemErr × MemoryPool :=
  match lookupA region_id p.regions with
  | none => (some MemErr.unknownRegion, p)
  | some region =>
    if region.owner_task_id ≠ requester_task_id then (some MemErr.ownerMismatch, p)
    else (none,
      { p with used_bytes := p.used_bytes - region.size,
               regions := eraseA region_id p.regions,
               storage := eraseA region_id p.storage })

/-- MemoryPool.read: no ownership check; bounds check offset, length and
offset + length against the region size, then slice the buffer. -/
def MemoryPool.read (p : MemoryPool) (region_id : String) (offset length : Int) :
    Except MemErr (List Nat) × MemoryPool :=
  match lookupA region_id p.regions with
  | none => (Except.error MemErr.unknownRegion, p)
  | some region =>
    if offset < 0 ∨ length < 0 ∨ region.size < offset + length then
      (Except.error MemErr.outOfBounds, p)
    else match lookupA region_id p.storage with
      | none => (Except.error MemErr.storageKeyMissing, p)
      | some buf => (Except.ok ((buf.drop offset.toNat).take length.toNat), p)

/-- MemoryPool.write: region existence, read-only flag, ownership and bounds
are checked in source order before the buffer slice is replaced. -/
def MemoryPool.write (p : MemoryPool) (region_id requester_task_id : String)
    (offset : Int) (data : List Nat) : Option MemErr × MemoryPool :=
  match lookupA region_id p.regions with
  | none => (some MemErr.unknownRegion, p)
  | some region =>
    if region.read_only then (some MemErr.readOnlyRegion, p)
    else if region.owner_task_id ≠ requester_task_id then (some MemErr.ownerMismatch, p)
    else if offset < 0 ∨ (data.length : Int) < 0 ∨ region.size < offset + (data.length : Int) then
      (some MemErr.outOfBounds, p)
    else match lookupA region_id p.storage with
      | none => (some MemErr.storageKeyMissing, p)
      | some buf =>
        let buf1 := buf.take offset.toNat ++ data ++ buf.drop (offset.toNat + data.length)
        (none, { p with storage := insertA region_id buf1 p.storage })

/-- MemoryPool.region_count property. -/
def MemoryPool.region_count (p : MemoryPool) : Nat := p.regions.length

/-- Sum of the sizes of the regions currently in the pool. -/
def sumRegions (p : MemoryPool) : Int := (p.regions.map (fun e => e.2.size)).sum

/-- One call against a MemoryPool, for stating whole-history invariants. -/
inductive MemOp where
  | alloc (region_id owner_task_id : String) (size : Int)
  | free (region_id requester_task_id : String)
  | read (region_id : String) (offset length : Int)
  | write (region_id requester_task_id : String) (offset : Int) (data : List Nat)

/-- The pool state after one call, successful or failing. -/
def applyOp (p : MemoryPool) : MemOp → MemoryPool
  | MemOp.alloc r o s => (p.alloc r o s).2
  | MemOp.free r q => (p.free r q).2
  | MemOp.read r o l => (p.read r o l).2
  | MemOp.write r q o d => (p.write r q o d).2

/-- Counter from metrics.py (value modelled as Int, see header). -/
structure Counter where
  value : Int
deriving DecidableEq, Repr

/-- Counter.inc: adds the given amount, default 1 at every call site. -/
def Counter.inc (c : Counter) (amount : Int) : Counter :=
  { value := c.value + amount }

/-- Gauge from metrics.py. -/
structure Gauge where
  value : Int
deriving DecidableEq, Repr

/-- Gauge.set. -/
def Gauge.set (g : Gauge) (v : Int) : Gauge := { g with value := v }

/-- Gauge.inc. -/
def Gauge.incBy (g : Gauge) (amount : Int) : Gauge := { value := g.value + amount }

/-- Gauge.dec. -/
def Gauge.decBy (g : Gauge) (amount : Int) : Gauge := { value := g.value - amount }

/-- The process-local metric registry fields touched by the scheduler. -/
structure Metrics where
  tasks_submitted : Counter
  tasks_completed : Counter
  tasks_failed : Counter
  tasks_cancelled : Counter
  scheduler_quantum_overruns : Counter
  memory_used_bytes : Gauge
  memory_region_count : Gauge
  worker_queue_depth : Gauge
deriving DecidableEq, Repr

/-- Fresh registry, all values zero. -/
def Metrics.init : Metrics :=
  { tasks_submitted := { value := 0 }, tasks_completed := { value := 0 },
    tasks_failed := { value := 0 }, tasks_cancelled := { value := 0 },
    scheduler_quantum_overruns := { value := 0 },
    memory_used_bytes := { value := 0 }, memory_region_count := { value := 0 },
    worker_queue_depth := { value := 0 } }

/-- MessageType from ipc.py. -/
inductive MessageType where
  | TASK_SUBMIT
  | TASK_RESULT
  | WORKER_STATUS
  | CONTROL
deriving DecidableEq, Repr

/-- The payload dict built by Scheduler._emit_result: id, owner, state name,
last_error.  Only result messages are sent by the scheduler, so Message is
specialised to this payload shape. -/
structure ResultPayload where
  id : Nat
  owner : String
  state : TaskState
  last_error : Option String
deriving DecidableEq, Repr

/-- Message from ipc.py, specialised to the scheduler result channel. -/
structure Message where
  type : MessageType
  payload : ResultPayload
deriving DecidableEq, Repr

/-- Environment oracle: which send attempts on the result queue succeed
(queue.put in ipc.send either enqueues or raises IPCError), and whether the
wall clock exceeded the quantum during the current step. -/
structure Env where
  sendOk : Nat → Bool
  overrun : Bool

/-- The Scheduler extension points: _execute_step may mutate the task state
and last_error or raise (Except.error carries str(exc)); _is_task_complete
inspects the task. -/
structure Hooks where
  execStep : Task → Except String (TaskState × Option String)
  isComplete : Task → Bool

/-- The default hooks in scheduler.py: _execute_step is a no-op and
_is_task_complete holds iff the state is not WAITING. -/
def defaultHooks : Hooks where
  execStep := fun t => Except.ok (t.state, t.last_error)
  isComplete := fun t => t.state != TaskState.WAITING

/-- Scheduler state: the task list, the messages sent so far on the result
queue, the number of send attempts so far, the metric registry and the
owned memory pool. -/
structure SchedState where
  tasks : List Task
  emitted : List Message
  sendCount : Nat
  metrics : Metrics
  pool : MemoryPool
deriving DecidableEq, Repr

/-- Scheduler.__init__. -/
def initScheduler (memory_pool_bytes : Int) : SchedState :=
  { tasks := [], emitted := [], sendCount := 0,
    metrics := Metrics.init, pool := MemoryPool.init memory_pool_bytes }

/-- ipc.send on the result queue: the n-th attempt either appends the
message or raises IPCError (modelled as the string of the raise site). -/
def ipcSend (env : Env) (st : SchedState) (msg : Message) : Option String × SchedState :=
  if env.sendOk st.sendCount then
    (none, { st with emitted := st.emitted ++ [msg], sendCount := st.sendCount + 1 })
  else
    (some "send failed", { st with sendCount := st.sendCount + 1 })

/-- The TASK_RESULT message built by Scheduler._emit_result. -/
def emitMsg (task : Task) : Message :=
  { type := MessageType.TASK_RESULT,
    payload := { id := task.meta.id, owner := task.meta.owner,
                 state := task.state, last_error := task.last_error } }

/-- Scheduler._emit_result: build the message and send it. -/
def emitResult (env : Env) (st : SchedState) (task : Task) : Option String × SchedState :=
  ipcSend env st (emitMsg task)

/-- In-place mutation of a task object held in the task list: the entry with
the same id is replaced (ids are unique in every reachable state). -/
def updateTask (tasks : List Task) (t : Task) : List Task :=
  tasks.map (fun u => if u.meta.id = t.meta.id then t else u)

/-- list.remove(task): drop the first element equal to the given task. -/
def removeFirst (tasks : List Task) (t : Task) : List Task :=
  match tasks with
  | [] => []
  | u :: rest => if u = t then rest else u :: removeFirst rest t

/-- The ready filter of Scheduler.run_once: tasks in PENDING or WAITING. -/
def readyOf (tasks : List Task) : List Task :=
  tasks.filter (fun t => t.state == TaskState.PENDING || t.state == TaskState.WAITING)

/-- The selection key of Scheduler.run_once: (priority, -created_at). -/
def taskKey (t : Task) : Int × Int := (t.meta.priority, -t.meta.created_at)

/-- Strict lexicographic comparison of selection keys, as Python compares
the tuples. -/
def keyLtB (x y : Int × Int) : Bool := x.1 < y.1 || (x.1 == y.1 && x.2 < y.2)

/-- One comparison step of Python max: the scanned element replaces the
best so far only when its key is strictly greater. -/
def pickMax (best u : Task) : Task :=
  if keyLtB (taskKey best) (taskKey u) then u else best

/-- Python max over a nonempty list with a key function: scan left to right,
replacing the best only on a strictly greater key, so the first maximal
element wins ties. -/
def pyMax : List Task → Option Task
  | [] => none
  | t :: ts => some (ts.foldl pickMax t)

/-- The task Scheduler.run_once will operate on, if any. -/
def selectTask (st : SchedState) : Option Task :=
  pyMax (readyOf st.tasks)

/-- The deadline test of Scheduler.run_once: deadline set and now past it. -/
def deadlineExpired (now : Int) (t : Task) : Bool :=
  match t.meta.deadline with
  | some d => d < now
  | none => false

/-- Scheduler.enqueue_from_payload: build a PENDING task from the payload
metadata (fresh id and creation time supplied by the environment), append
it, bump tasks_submitted and refresh worker_queue_depth. -/
structure Payload where
  owner : String
  priority : Int
  deadline : Option Int
deriving DecidableEq, Repr

def enqueue_from_payload (st : SchedState) (p : Payload) (freshId : Nat) (createdAt : Int) :
    SchedState :=
  let task : Task :=
    { meta := { id := freshId, owner := p.owner, priority := p.priority,
                created_at := createdAt, deadline := p.deadline },
      state := TaskState.PENDING, last_error := none }
  let st1 := { st with tasks := st.tasks ++ [task] }
  let st2 := { st1 with metrics :=
    { st1.metrics with tasks_submitted := st1.metrics.tasks_submitted.inc 1 } }
  { st2 with metrics :=
    { st2.metrics with worker_queue_depth := st2.metrics.worker_queue_depth.set st2.tasks.length } }

/-- The except-handler of Scheduler._run_task_quantum: mark the task FAILED,
record the error text, bump tasks_failed, emit the result (an IPCError here
propagates) and on success remove the task. -/
def quantumExcept (env : Env) (st : SchedState) (task : Task) (msg : String) :
    Option String × SchedState :=
  let taskF : Task := { task with state := TaskState.FAILED, last_error := some msg }
  let st1 := { st with tasks := updateTask st.tasks taskF,
                       metrics := { st.metrics with tasks_failed := st.metrics.tasks_failed.inc 1 } }
  match emitResult env st1 taskF with
  | (some e, st2) => (some e, st2)
  | (none, st2) => (none, { st2 with tasks := removeFirst st2.tasks taskF })

/-- The try-block of Scheduler._run_task_quantum: set RUNNING, run the step
hook; on success and completion mark DONE, bump tasks_completed, emit and
remove -- any exception in this block, including an IPCError from the DONE
emit, falls into the except-handler. -/
def quantumTry (env : Env) (hk : Hooks) (st : SchedState) (task : Task) :
    Option String × SchedState :=
  let task1 : Task := { task with state := TaskState.RUNNING }
  let st1 := { st with tasks := updateTask st.tasks task1 }
  match hk.execStep task1 with
  | Except.error msg => quantumExcept env st1 task1 msg
  | Except.ok res =>
    let task2 : Task := { task1 with state := res.1, last_error := res.2 }
    let st2 := { st1 with tasks := updateTask st1.tasks task2 }
    if hk.isComplete task2 then
      let task3 : Task := { task2 with state := TaskState.DONE }
      let st3 := { st2 with tasks := updateTask st2.tasks task3,
                            metrics := { st2.metrics with
                              tasks_completed := st2.metrics.tasks_completed.inc 1 } }
      match emitResult env st3 task3 with
      | (none, st4) => (none, { st4 with tasks := removeFirst st4.tasks task3 })
      | (some e, st4) => quantumExcept env st4 task3 e
    else (none, st2)

/-- The finally-block of Scheduler._run_task_quantum: overrun accounting and
the three gauge refreshes.  It runs whether or not an exception escapes. -/
def finallyBlock (env : Env) (st : SchedState) : SchedState :=
  let st1 := if env.overrun then
      { st with metrics := { st.metrics with
        scheduler_quantum_overruns := st.metrics.scheduler_quantum_overruns.inc 1 } }
    else st
  let st2 := { st1 with metrics := { st1.metrics with
    worker_queue_depth := st1.metrics.worker_queue_depth.set st1.tasks.length } }
  let st3 := { st2 with metrics := { st2.metrics with
    memory_used_bytes := st2.metrics.memory_used_bytes.set st2.pool.used_bytes } }
  { st3 with metrics := { st3.metrics with
    memory_region_count := st3.metrics.memory_region_count.set st3.pool.region_count } }

/-- Scheduler._run_task_quantum: try/except body, then the finally block. -/
def run_task_quantum (env : Env) (hk : Hooks) (st : SchedState) (task : Task) :
    Option String × SchedState :=
  let r := quantumTry env hk st task
  (r.1, finallyBlock env r.2)

/-- Scheduler.run_once: select the highest-priority eligible task; cancel it
outright when its deadline has passed (emit, remove, refresh depth), else
run one quantum. -/
def run_once (env : Env) (hk : Hooks) (now : Int) (st : SchedState) :
    Option String × SchedState :=
  match selectTask st with
  | none => (none, st)
  | some task =>
    if deadlineExpired now task then
      let task1 : Task := { task with state := TaskState.CANCELLED }
      let st1 := { st with tasks := updateTask st.tasks task1 }
      let st2 := { st1 with metrics := { st1.metrics with
        tasks_cancelled := st1.metrics.tasks_cancelled.inc 1 } }
      match emitResult env st2 task1 with
      | (some e, st3) => (some e, st3)
      | (none, st3) =>
        let st4 := { st3 with tasks := removeFirst st3.tasks task1 }
        (none, { st4 with metrics := { st4.metrics with
          worker_queue_depth := st4.metrics.worker_queue_depth.set st4.tasks.length } })
    else run_task_quantum env hk st task

/-- Iterated run_once with one now value per call (the worker loop calls
run_once on every poll tick). -/
def runN (env : Env) (hk : Hooks) (nows : List Int) (st : SchedState) : SchedState :=
  nows.foldl (fun s n => (run_once env hk n s).2) st

/-- Ids of the tasks currently queued. -/
def taskIds (st : SchedState) : List Nat := st.tasks.map (fun t => t.meta.id)

/-- A state is terminal when it is DONE, FAILED or CANCELLED. -/
def terminalState (s : TaskState) : Prop :=
  s = TaskState.DONE ∨ s = TaskState.FAILED ∨ s = TaskState.CANCELLED

/-- Well-formedness of a pool: used_bytes is the sum of the region sizes,
every region has positive size, and used_bytes is within capacity. -/
def poolWF (p : MemoryPool) : Prop :=
  p.used_bytes = sumRegions p ∧ (∀ e ∈ p.regions, 0 < e.2.size) ∧ p.used_bytes ≤ p.max_bytes

theorem lookupA_mem {α : Type} {k : String} {v : α} :
    ∀ {l : List (String × α)}, lookupA k l = some v → (k, v) ∈ l := by
  intro l
  induction l with
  | nil => intro h; simp [lookupA] at h
  | cons e rest ih =>
    obtain ⟨k1, v1⟩ := e
    intro h
    simp only [lookupA] at h
    by_cases hk : k1 = k
    · rw [if_pos hk] at h
      injection h with h2
      subst hk
      subst h2
      exact List.mem_cons_self _ _
    · rw [if_neg hk] at h
      right
      exact ih h

theorem mem_insertA {α : Type} {k : String} {v : α} {e : String × α} :
    ∀ {l : List (String × α)}, e ∈ insertA k v l → e = (k, v) ∨ e ∈ l := by
  intro l
  induction l with
  | nil => intro h; simp [insertA] at h; left; exact h
  | cons e1 rest ih =>
    intro h
    simp only [insertA] at h
    by_cases hk : e1.1 = k
    · rw [if_pos hk] at h
      rcases List.mem_cons.mp h with h1 | h1
      · left; exact h1
      · right; exact List.mem_cons_of_mem _ h1
    · rw [if_neg hk] at h
      rcases List.mem_cons.mp h with h1 | h1
      · right; rw [h1]; exact List.mem_cons_self _ _
      · rcases ih h1 with h2 | h2
        · left; exact h2
        · right; exact List.mem_cons_of_mem _ h2

theorem mem_eraseA {α : Type} {k : String} {e : String × α} :
    ∀ {l : List (String × α)}, e ∈ eraseA k l → e ∈ l := by
  intro l
  induction l with
  | nil => intro h; simp [eraseA] at h
  | cons e1 rest ih =>
    intro h
    simp only [eraseA] at h
    by_cases hk : e1.1 = k
    · rw [if_pos hk] at h
      exact List.mem_cons_of_mem _ h
    · rw [if_neg hk] at h
      rcases List.mem_cons.mp h with h1 | h1
      · rw [h1]; exact List.mem_cons_self _ _
      · exact List.mem_cons_of_mem _ (ih h1)

theorem mapsum_insertA {α : Type} (f : α → Int) {k : String} (v : α) :
    ∀ {l : List (String × α)}, lookupA k l = none →
      ((insertA k v l).map (fun e => f e.2)).sum = (l.map (fun e => f e.2)).sum + f v := by
  intro l
  induction l with
  | nil => intro _; simp [insertA]
  | cons e1 rest ih =>
    intro h
    simp only [lookupA] at h
    by_cases hk : e1.1 = k
    · rw [if_pos hk] at h; cases h
    · rw [if_neg hk] at h
      simp only [insertA, if_neg hk, List.map_cons, List.sum_cons, ih h]
      ring

theorem mapsum_eraseA {α : Type} (f : α → Int) {k : String} {r : α} :
    ∀ {l : List (String × α)}, lookupA k l = some r →
      ((eraseA k l).map (fun e => f e.2)).sum = (l.map (fun e => f e.2)).sum - f r := by
  intro l
  induction l with
  | nil => intro h; simp [lookupA] at h
  | cons e1 rest ih =>
    intro h
    simp only [lookupA] at h
    by_cases hk : e1.1 = k
    · rw [if_pos hk] at h
      cases h
      simp only [eraseA, if_pos hk, List.map_cons, List.sum_cons]
      ring
    · rw [if_neg hk] at h
      simp only [eraseA, if_neg hk, List.map_cons, List.sum_cons, ih h]
      ring

theorem poolWF_used_nonneg {p : MemoryPool} (h : poolWF p) : 0 ≤ p.used_bytes := by
  rcases h with ⟨hsum, hpos, _⟩
  rw [hsum]
  apply List.sum_nonneg
  intro x hx
  rcases List.mem_map.mp hx with ⟨e, he, rfl⟩
  exact le_of_lt (hpos e he)

theorem read_pool_unchanged (p : MemoryPool) (r : String) (o l : Int) :
    (p.read r o l).2 = p := by
  unfold MemoryPool.read
  rcases lookupA r p.regions with _ | reg
  · rfl
  · simp only
    split
    · rfl
    · rcases lookupA r p.storage with _ | buf <;> rfl

theorem write_pool_fields (p : MemoryPool) (r q : String) (o : Int) (d : List Nat) :
    (p.write r q o d).2.used_bytes = p.used_bytes ∧
    (p.write r q o d).2.regions = p.regions ∧
    (p.write r q o d).2.max_bytes = p.max_bytes := by
  unfold MemoryPool.write
  rcases lookupA r p.regions with _ | reg
  · exact ⟨rfl, rfl, rfl⟩
  · simp only
    split
    · exact ⟨rfl, rfl, rfl⟩
    · split
      · exact ⟨rfl, rfl, rfl⟩
      · split
        · exact ⟨rfl, rfl, rfl⟩
        · rcases lookupA r p.storage with _ | buf
          · exact ⟨rfl, rfl, rfl⟩
          · exact ⟨rfl, rfl, rfl⟩

theorem poolWF_alloc {p : MemoryPool} (h : poolWF p) (r o : String) (s : Int) :
    poolWF (p.alloc r o s).2 := by
  rcases h with ⟨hsum, hpos, hcap⟩
  unfold MemoryPool.alloc
  by_cases h1 : s ≤ 0
  · rw [if_pos h1]; exact ⟨hsum, hpos, hcap⟩
  · rw [if_neg h1]
    by_cases h2 : p.max_bytes < p.used_bytes + s
    · rw [if_pos h2]; exact ⟨hsum, hpos, hcap⟩
    · rw [if_neg h2]
      rcases hl : lookupA r p.regions with _ | reg
      · simp only
        refine ⟨?_, ?_, ?_⟩
        · show p.used_bytes + s = sumRegions _
          unfold sumRegions at hsum ⊢
          simp only
          rw [mapsum_insertA (fun reg => reg.size) _ hl, ← hsum]
        · intro e he
          rcases mem_insertA he with h3 | h3
          · rw [h3]; simpa using lt_of_not_le h1
          · exact hpos e h3
        · show p.used_bytes + s ≤ p.max_bytes
          omega
      · simp only; exact ⟨hsum, hpos, hcap⟩

theorem poolWF_free {p : MemoryPool} (h : poolWF p) (r q : String) :
    poolWF (p.free r q).2 := by
  rcases h with ⟨hsum, hpos, hcap⟩
  unfold MemoryPool.free
  rcases hl : lookupA r p.regions with _ | reg
  · exact ⟨hsum, hpos, hcap⟩
  · simp only
    split
    · exact ⟨hsum, hpos, hcap⟩
    · have hr : (r, reg) ∈ p.regions := lookupA_mem hl
      refine ⟨?_, ?_, ?_⟩
      · show p.used_bytes - reg.size = sumRegions _
        unfold sumRegions at hsum ⊢
        simp only
        rw [mapsum_eraseA (fun reg => reg.size) hl, ← hsum]
      · intro e he
        exact hpos e (mem_eraseA he)
      · show p.used_bytes - reg.size ≤ p.max_bytes
        have := hpos (r, reg) hr
        simp only at this
        omega

theorem poolWF_write {p : MemoryPool} (h : poolWF p) (r q : String) (o : Int) (d : List Nat) :
    poolWF (p.write r q o d).2 := by
  rcases write_pool_fields p r q o d with ⟨h1, h2, h3⟩
  rcases h with ⟨hsum, hpos, hcap⟩
  refine ⟨?_, ?_, ?_⟩
  · rw [h1]; unfold sumRegions; rw [h2]; exact hsum
  · rw [h2]; exact hpos
  · rw [h1, h3]; exact hcap

theorem poolWF_applyOp {p : MemoryPool} (h : poolWF p) (op : MemOp) :
    poolWF (applyOp p op) := by
  cases op with
  | alloc r o s => exact poolWF_alloc h r o s
  | free r q => exact poolWF_free h r q
  | read r o l => simp only [applyOp]; rw [read_pool_unchanged]; exact h
  | write r q o d => exact poolWF_write h r q o d

theorem poolWF_foldl {p : MemoryPool} (h : poolWF p) :
    ∀ ops : List MemOp, poolWF (ops.foldl applyOp p) := by
  intro ops
  induction ops generalizing p with
  | nil => exact h
  | cons op rest ih => exact ih (poolWF_applyOp h op)

theorem poolWF_max_eq {p : MemoryPool} :
    ∀ ops : List MemOp, (ops.foldl applyOp p).max_bytes = p.max_bytes := by
  intro ops
  induction ops generalizing p with
  | nil => rfl
  | cons op rest ih =>
    rw [List.foldl_cons, ih]
    cases op with
    | alloc r o s =>
      show (p.alloc r o s).2.max_bytes = p.max_bytes
      unfold MemoryPool.alloc
      split
      · rfl
      · split
        · rfl
        · rcases lookupA r p.regions with _ | reg <;> rfl
    | free r q =>
      show (p.free r q).2.max_bytes = p.max_bytes
      unfold MemoryPool.free
      rcases lookupA r p.regions with _ | reg
      · rfl
      · simp only
        split <;> rfl
    | read r o l =>
      show (p.read r o l).2.max_bytes = p.max_bytes
      rw [read_pool_unchanged]
    | write r q o d =>
      exact (write_pool_fields p r q o d).2.2

theorem alloc_oom {p : MemoryPool} (h : poolWF p) (r o : String) {s : Int}
    (hs : p.max_bytes < p.used_bytes + s) :
    (p.alloc r o s).1 = Except.error MemErr.outOfMemory ∧ (p.alloc r o s).2 = p := by
  have h0 : 0 ≤ p.used_bytes := poolWF_used_nonneg h
  have hcap : p.used_bytes ≤ p.max_bytes := h.2.2
  have hspos : ¬ s ≤ 0 := by omega
  unfold MemoryPool.alloc
  rw [if_neg hspos, if_pos hs]
  exact ⟨rfl, rfl⟩

theorem lookupA_insertA {α : Type} (k : String) (v : α) :
    ∀ l : List (String × α), lookupA k (insertA k v l) = some v := by
  intro l
  induction l with
  | nil => simp [insertA, lookupA]
  | cons e rest ih =>
    obtain ⟨k1, v1⟩ := e
    by_cases hk : k1 = k
    · simp [insertA, if_pos hk, lookupA]
    · simp only [insertA, if_neg hk, lookupA, if_neg hk, ih]

/-- C2: for every MemoryPool and every sequence of alloc, free, read and
write calls, used_bytes equals the sum of the sizes of the live regions and
stays between 0 and max_bytes; and on any such pool, alloc fails with a
MemoryErrorLogical (here the outOfMemory kind) whenever used_bytes + size
would exceed max_bytes, leaving the pool unchanged. -/
theorem C2_pool_invariant (max_bytes : Int) (hmax : 0 ≤ max_bytes) (ops : List MemOp) :
    (ops.foldl applyOp (MemoryPool.init max_bytes)).used_bytes =
      sumRegions (ops.foldl applyOp (MemoryPool.init max_bytes)) ∧
    0 ≤ (ops.foldl applyOp (MemoryPool.init max_bytes)).used_bytes ∧
    (ops.foldl applyOp (MemoryPool.init max_bytes)).used_bytes ≤ max_bytes ∧
    (ops.foldl applyOp (MemoryPool.init max_bytes)).max_bytes = max_bytes ∧
    ∀ r o s,
      max_bytes < (ops.foldl applyOp (MemoryPool.init max_bytes)).used_bytes + s →
      ((ops.foldl applyOp (MemoryPool.init max_bytes)).alloc r o s).1 =
          Except.error MemErr.outOfMemory ∧
        ((ops.foldl applyOp (MemoryPool.init max_bytes)).alloc r o s).2 =
          ops.foldl applyOp (MemoryPool.init max_bytes) := by
  have hwf0 : poolWF (MemoryPool.init max_bytes) := by
    refine ⟨?_, ?_, ?_⟩
    · simp [MemoryPool.init, sumRegions]
    · intro e he; simp [MemoryPool.init] at he
    · simpa [MemoryPool.init] using hmax
  have hwf : poolWF (ops.foldl applyOp (MemoryPool.init max_bytes)) := poolWF_foldl hwf0 ops
  have hmaxeq : (ops.foldl applyOp (MemoryPool.init max_bytes)).max_bytes = max_bytes := by
    rw [poolWF_max_eq]; rfl
  refine ⟨hwf.1, poolWF_used_nonneg hwf, ?_, hmaxeq, ?_⟩
  · have := hwf.2.2; omega
  · intro r o s hs
    exact alloc_oom hwf r o (by omega)

/-- C2 witness: a concrete history (alloc, write, free, failed alloc) on a
pool of capacity 100 satisfies the invariant, and an allocation overshooting
the capacity fails with outOfMemory and leaves the pool unchanged. -/
theorem C2_pool_invariant_witness :
    ([MemOp.alloc "r1" "t" 10, MemOp.write "r1" "t" 2 [7, 8], MemOp.free "r1" "t",
        MemOp.alloc "r2" "t" 40].foldl applyOp (MemoryPool.init 100)).used_bytes =
      sumRegions ([MemOp.alloc "r1" "t" 10, MemOp.write "r1" "t" 2 [7, 8], MemOp.free "r1" "t",
        MemOp.alloc "r2" "t" 40].foldl applyOp (MemoryPool.init 100)) ∧
    (([MemOp.alloc "r1" "t" 10, MemOp.write "r1" "t" 2 [7, 8], MemOp.free "r1" "t",
        MemOp.alloc "r2" "t" 40].foldl applyOp (MemoryPool.init 100)).alloc "r3" "t" 90).1 =
      Except.error MemErr.outOfMemory := by
  refine ⟨(C2_pool_invariant 100 (by decide) _).1, ?_⟩
  exact ((C2_pool_invariant 100 (by decide) _).2.2.2.2 "r3" "t" 90 (by decide)).1

/-- C9: error atomicity of the memory pool.  If alloc, free, read or write
raises, the observable pool state (used_bytes, regions and their attributes,
and all byte contents) is exactly what it was before the call; read never
mutates the pool at all. -/
theorem C9_error_atomicity (p : MemoryPool) :
    (∀ r o s, (∃ e, (p.alloc r o s).1 = Except.error e) → (p.alloc r o s).2 = p) ∧
    (∀ r q, (∃ e, (p.free r q).1 = some e) → (p.free r q).2 = p) ∧
    (∀ r o l, (p.read r o l).2 = p) ∧
    (∀ r q o d, (∃ e, (p.write r q o d).1 = some e) → (p.write r q o d).2 = p) := by
  refine ⟨?_, ?_, ?_, ?_⟩
  · intro r o s h
    unfold MemoryPool.alloc
    split
    · rfl
    · split
      · rfl
      · rcases hl : lookupA r p.regions with _ | reg
        · exfalso
          rcases h with ⟨e, he⟩
          unfold MemoryPool.alloc at he
          rw [if_neg (by assumption), if_neg (by assumption), hl] at he
          cases he
        · rfl
  · intro r q h
    unfold MemoryPool.free
    rcases hl : lookupA r p.regions with _ | reg
    · rfl
    · simp only
      split
      · rfl
      · exfalso
        rcases h with ⟨e, he⟩
        unfold MemoryPool.free at he
        rw [hl] at he
        simp only at he
        rw [if_neg (by assumption)] at he
        cases he
  · intro r o l
    exact read_pool_unchanged p r o l
  · intro r q o d h
    unfold MemoryPool.write
    rcases hl : lookupA r p.regions with _ | reg
    · rfl
    · simp only
      split
      · rfl
      · split
        · rfl
        · split
          · rfl
          · rcases hs : lookupA r p.storage with _ | buf
            · rfl
            · exfalso
              rcases h with ⟨e, he⟩
              unfold MemoryPool.write at he
              rw [hl] at he
              simp only at he
              rw [if_neg (by assumption), if_neg (by assumption),
                if_neg (by assumption), hs] at he
              cases he

/-- C9 witness: failing calls on a concrete pool leave it unchanged. -/
theorem C9_error_atomicity_witness :
    ((MemoryPool.init 100).alloc "r" "t" 0).2 = MemoryPool.init 100 ∧
    ((MemoryPool.init 100).free "r" "t").2 = MemoryPool.init 100 ∧
    ((MemoryPool.init 100).read "r" 0 1).2 = MemoryPool.init 100 ∧
    ((MemoryPool.init 100).write "r" "t" 0 [1]).2 = MemoryPool.init 100 := by
  refine ⟨?_, ?_, ?_, ?_⟩
  · exact (C9_error_atomicity (MemoryPool.init 100)).1 "r" "t" 0
      ⟨MemErr.sizeNonPositive, by rfl⟩
  · exact (C9_error_atomicity (MemoryPool.init 100)).2.1 "r" "t"
      ⟨MemErr.unknownRegion, by rfl⟩
  · exact (C9_error_atomicity (MemoryPool.init 100)).2.2.1 "r" 0 1
  · exact (C9_error_atomicity (MemoryPool.init 100)).2.2.2 "r" "t" 0 [1]
      ⟨MemErr.unknownRegion, by rfl⟩

/-- C10: a successful alloc zero-fills the new region: an immediately
following read of the whole region returns exactly size bytes, all zero. -/
theorem C10_zero_filled (p : MemoryPool) (rid owner : String) (size : Int) (reg : Region)
    (h : (p.alloc rid owner size).1 = Except.ok reg) :
    0 < size ∧ ((size.toNat : Int) = size) ∧
    ((p.alloc rid owner size).2.read rid 0 size).1 =
      Except.ok (List.replicate size.toNat 0) ∧
    (List.replicate size.toNat (0 : Nat)).length = size.toNat := by
  unfold MemoryPool.alloc at h
  by_cases h1 : size ≤ 0
  · rw [if_pos h1] at h; cases h
  · rw [if_neg h1] at h
    by_cases h2 : p.max_bytes < p.used_bytes + size
    · rw [if_pos h2] at h; cases h
    · rw [if_neg h2] at h
      rcases hl : lookupA rid p.regions with _ | reg1
      · rw [hl] at h
        have hpos : 0 < size := lt_of_not_le h1
        refine ⟨hpos, Int.toNat_of_nonneg (le_of_lt hpos), ?_, List.length_replicate _ _⟩
        unfold MemoryPool.alloc
        rw [if_neg h1, if_neg h2, hl]
        simp only
        unfold MemoryPool.read
        simp only [lookupA_insertA]
        have hbound : ¬ ((0 : Int) < 0 ∨ size < 0 ∨ size < 0 + size) := by omega
        rw [if_neg hbound]
        simp [List.take_replicate]
      · rw [hl] at h; cases h

/-- C10 witness: alloc of 5 bytes then read of the whole region on a fresh
pool returns five zero bytes. -/
theorem C10_zero_filled_witness :
    (((MemoryPool.init 100).alloc "r1" "t" 5).2.read "r1" 0 5).1 =
      Except.ok (List.replicate 5 0) := by
  have h := C10_zero_filled (MemoryPool.init 100) "r1" "t" 5
    { id := "r1", owner_task_id := "t", size := 5, read_only := false } (by rfl)
  exact h.2.2.1

/-- Non-strict lexicographic order on selection keys. -/
def keyLe (x y : Int × Int) : Prop := x.1 < y.1 ∨ (x.1 = y.1 ∧ x.2 ≤ y.2)

theorem keyLtB_eq_true {x y : Int × Int} :
    keyLtB x y = true ↔ (x.1 < y.1 ∨ (x.1 = y.1 ∧ x.2 < y.2)) := by
  simp [keyLtB]

theorem keyLe_refl (x : Int × Int) : keyLe x x := Or.inr ⟨rfl, le_refl _⟩

theorem keyLe_trans {x y z : Int × Int} (h1 : keyLe x y) (h2 : keyLe y z) : keyLe x z := by
  rcases h1 with h1 | ⟨h1a, h1b⟩ <;> rcases h2 with h2 | ⟨h2a, h2b⟩ <;>
    unfold keyLe <;> omega

theorem keyLe_of_ltB {x y : Int × Int} (h : keyLtB x y = true) : keyLe x y := by
  rcases keyLtB_eq_true.mp h with h1 | ⟨h1, h2⟩
  · exact Or.inl h1
  · exact Or.inr ⟨h1, le_of_lt h2⟩

theorem keyLe_of_not_ltB {x y : Int × Int} (h : keyLtB x y = false) : keyLe y x := by
  have h1 : ¬ (x.1 < y.1 ∨ (x.1 = y.1 ∧ x.2 < y.2)) := by
    intro hc
    rw [keyLtB_eq_true.mpr hc] at h
    cases h
  unfold keyLe
  omega

theorem foldl_pickMax_mem : ∀ (ts : List Task) (a : Task),
    ts.foldl pickMax a = a ∨ ts.foldl pickMax a ∈ ts := by
  intro ts
  induction ts with
  | nil => intro a; left; rfl
  | cons u rest ih =>
    intro a
    rw [List.foldl_cons]
    rcases ih (pickMax a u) with h | h
    · rw [h]
      unfold pickMax
      split
      · right; exact List.mem_cons_self _ _
      · left; rfl
    · right; exact List.mem_cons_of_mem _ h

theorem foldl_pickMax_le_acc : ∀ (ts : List Task) (a : Task),
    keyLe (taskKey a) (taskKey (ts.foldl pickMax a)) := by
  intro ts
  induction ts with
  | nil => intro a; exact keyLe_refl _
  | cons u rest ih =>
    intro a
    rw [List.foldl_cons]
    refine keyLe_trans ?_ (ih (pickMax a u))
    unfold pickMax
    rcases hb : keyLtB (taskKey a) (taskKey u) with _ | _
    · rw [if_neg (by simp [hb])]; exact keyLe_refl _
    · rw [if_pos (by simp [hb])]; exact keyLe_of_ltB hb

theorem foldl_pickMax_le_mem : ∀ (ts : List Task) (a u : Task), u ∈ ts →
    keyLe (taskKey u) (taskKey (ts.foldl pickMax a)) := by
  intro ts
  induction ts with
  | nil => intro a u h; cases h
  | cons v rest ih =>
    intro a u h
    rw [List.foldl_cons]
    rcases List.mem_cons.mp h with h1 | h1
    · subst h1
      refine keyLe_trans ?_ (foldl_pickMax_le_acc rest (pickMax a u))
      unfold pickMax
      rcases hb : keyLtB (taskKey a) (taskKey u) with _ | _
      · rw [if_neg (by simp [hb])]; exact keyLe_of_not_ltB hb
      · rw [if_pos (by simp [hb])]; exact keyLe_refl _
    · exact ih (pickMax a v) u h1

theorem pyMax_mem {l : List Task} {t : Task} (h : pyMax l = some t) : t ∈ l := by
  cases l with
  | nil => cases h
  | cons a ts =>
    simp only [pyMax] at h
    injection h with h1
    rcases foldl_pickMax_mem ts a with h2 | h2
    · rw [← h1, h2]; exact List.mem_cons_self _ _
    · rw [← h1]; exact List.mem_cons_of_mem _ h2

theorem pyMax_le {l : List Task} {t : Task} (h : pyMax l = some t) :
    ∀ u ∈ l, keyLe (taskKey u) (taskKey t) := by
  cases l with
  | nil => cases h
  | cons a ts =>
    simp only [pyMax] at h
    injection h with h1
    intro u hu
    rcases List.mem_cons.mp hu with h2 | h2
    · subst h2; rw [← h1]; exact foldl_pickMax_le_acc ts u
    · rw [← h1]; exact foldl_pickMax_le_mem ts a u h2

theorem mem_readyOf {tasks : List Task} {t : Task} :
    t ∈ readyOf tasks ↔
      t ∈ tasks ∧ (t.state = TaskState.PENDING ∨ t.state = TaskState.WAITING) := by
  unfold readyOf
  rw [List.mem_filter]
  constructor
  · rintro ⟨h1, h2⟩
    refine ⟨h1, ?_⟩
    rcases Bool.or_eq_true_iff.mp h2 with h3 | h3
    · left; exact eq_of_beq h3
    · right; exact eq_of_beq h3
  · rintro ⟨h1, h2⟩
    refine ⟨h1, ?_⟩
    rcases h2 with h3 | h3 <;> simp [h3]

/-- C4: whenever the ready set (exactly the PENDING and WAITING tasks) is
nonempty, run_once selects a ready task whose priority is maximal, ties
broken by earliest created_at; a selected task is always in the ready set,
so no task in another state is ever selected; and when the ready set is
empty run_once returns its state unchanged, selecting nothing. -/
theorem C4_priority_selection (st : SchedState) :
    (readyOf st.tasks = [] → selectTask st = none ∧
      ∀ env hk now, run_once env hk now st = (none, st)) ∧
    (readyOf st.tasks ≠ [] → ∃ t, selectTask st = some t ∧
      t ∈ readyOf st.tasks ∧ t ∈ st.tasks ∧
      (t.state = TaskState.PENDING ∨ t.state = TaskState.WAITING) ∧
      ∀ u ∈ readyOf st.tasks,
        u.meta.priority < t.meta.priority ∨
        (u.meta.priority = t.meta.priority ∧ t.meta.created_at ≤ u.meta.created_at)) ∧
    (∀ t, selectTask st = some t →
      t ∈ readyOf st.tasks ∧
      (t.state = TaskState.PENDING ∨ t.state = TaskState.WAITING)) := by
  refine ⟨?_, ?_, ?_⟩
  · intro hempty
    have hsel : selectTask st = none := by
      unfold selectTask
      rw [hempty]
      rfl
    refine ⟨hsel, ?_⟩
    intro env hk now
    unfold run_once
    rw [hsel]
  · intro hne
    rcases hsel : selectTask st with _ | t
    · exfalso
      unfold selectTask at hsel
      rcases h : readyOf st.tasks with _ | ⟨a, ts⟩
      · exact hne h
      · rw [h] at hsel; cases hsel
    · have hmem : t ∈ readyOf st.tasks := pyMax_mem hsel
      have hmem2 := mem_readyOf.mp hmem
      refine ⟨t, rfl, hmem, hmem2.1, hmem2.2, ?_⟩
      intro u hu
      have hle := pyMax_le hsel u hu
      unfold keyLe taskKey at hle
      simp only at hle
      omega
  · intro t hsel
    have hmem : t ∈ readyOf st.tasks := pyMax_mem hsel
    exact ⟨hmem, (mem_readyOf.mp hmem).2⟩

/-- C4 witness: with a priority-1 task created first and a priority-99 task
created later, run_once selects the priority-99 task. -/
theorem C4_priority_selection_witness :
    selectTask
      { tasks := [
          { meta := { id := 1, owner := "a", priority := 1, created_at := 0, deadline := none },
            state := TaskState.PENDING, last_error := none },
          { meta := { id := 2, owner := "a", priority := 99, created_at := 1, deadline := none },
            state := TaskState.PENDING, last_error := none }],
        emitted := [], sendCount := 0, metrics := Metrics.init,
        pool := MemoryPool.init 100 } =
      some { meta := { id := 2, owner := "a", priority := 99, created_at := 1, deadline := none },
             state := TaskState.PENDING, last_error := none } ∧
    ∃ t, selectTask
      { tasks := [
          { meta := { id := 1, owner := "a", priority := 1, created_at := 0, deadline := none },
            state := TaskState.PENDING, last_error := none },
          { meta := { id := 2, owner := "a", priority := 99, created_at := 1, deadline := none },
            state := TaskState.PENDING, last_error := none }],
        emitted := [], sendCount := 0, metrics := Metrics.init,
        pool := MemoryPool.init 100 } = some t ∧
      (t.state = TaskState.PENDING ∨ t.state = TaskState.WAITING) ∧
      t.meta.priority = 99 := by
  refine ⟨by rfl, ?_⟩
  rcases (C4_priority_selection
    { tasks := [
        { meta := { id := 1, owner := "a", priority := 1, created_at := 0, deadline := none },
          state := TaskState.PENDING, last_error := none },
        { meta := { id := 2, owner := "a", priority := 99, created_at := 1, deadline := none },
          state := TaskState.PENDING, last_error := none }],
      emitted := [], sendCount := 0, metrics := Metrics.init,
      pool := MemoryPool.init 100 }).2.1 (by decide) with ⟨t, hsel, _, _, hstate, _⟩
  refine ⟨t, hsel, hstate, ?_⟩
  have : t = { meta := { id := 2, owner := "a", priority := 99, created_at := 1, deadline := none },
               state := TaskState.PENDING, last_error := none } := by
    rw [show selectTask _ = some _ from by rfl] at hsel
    injection hsel with h
    exact h.symm
  rw [this]

theorem updateTask_map_ids (tasks : List Task) (t : Task) :
    (updateTask tasks t).map (fun u => u.meta.id) = tasks.map (fun u => u.meta.id) := by
  induction tasks with
  | nil => rfl
  | cons u rest ih =>
    simp only [updateTask, List.map_cons] at ih ⊢
    by_cases h : u.meta.id = t.meta.id
    · rw [if_pos h, ih, h]
    · rw [if_neg h, ih]

theorem updateTask_eq_self {tasks : List Task} {t : Task}
    (h : ∀ u ∈ tasks, u.meta.id ≠ t.meta.id) : updateTask tasks t = tasks := by
  induction tasks with
  | nil => rfl
  | cons u rest ih =>
    simp only [updateTask, List.map_cons] at ih ⊢
    rw [if_neg (h u (List.mem_cons_self _ _)), ih]
    intro v hv
    exact h v (List.mem_cons_of_mem _ hv)

theorem updateTask_updateTask (tasks : List Task) {a b : Task}
    (h : a.meta.id = b.meta.id) :
    updateTask (updateTask tasks a) b = updateTask tasks b := by
  induction tasks with
  | nil => rfl
  | cons u rest ih =>
    simp only [updateTask, List.map_cons] at ih ⊢
    by_cases hu : u.meta.id = a.meta.id
    · rw [if_pos hu]
      have hub : u.meta.id = b.meta.id := by omega
      rw [if_pos h, if_pos hub]
      exact congrArg _ ih
    · rw [if_neg hu]
      exact congrArg _ ih

theorem mem_updateTask_self {tasks : List Task} {u : Task} (t : Task)
    (hu : u ∈ tasks) (hid : u.meta.id = t.meta.id) : t ∈ updateTask tasks t := by
  unfold updateTask
  have h1 : (if u.meta.id = t.meta.id then t else u) = t := if_pos hid
  exact List.mem_map.mpr ⟨u, hu, h1⟩

theorem ne_of_id_ne {u t : Task} (h : u.meta.id ≠ t.meta.id) : u ≠ t := by
  intro hc
  rw [hc] at h
  exact h rfl

theorem removeFirst_updateTask (t : Task) :
    ∀ tasks : List Task, (tasks.map (fun u => u.meta.id)).Nodup →
      (∃ u ∈ tasks, u.meta.id = t.meta.id) →
      ((removeFirst (updateTask tasks t) t).map (fun u => u.meta.id) =
          (tasks.map (fun u => u.meta.id)).erase t.meta.id ∧
        ∀ v ∈ removeFirst (updateTask tasks t) t, v ∈ tasks) := by
  intro tasks
  induction tasks with
  | nil => rintro _ ⟨u, hu, _⟩; cases hu
  | cons u rest ih =>
    intro hnodup hmem
    rw [List.map_cons, List.nodup_cons] at hnodup
    by_cases hid : u.meta.id = t.meta.id
    · have hrest : ∀ v ∈ rest, v.meta.id ≠ t.meta.id := by
        intro v hv hc
        apply hnodup.1
        have h2 : u.meta.id = v.meta.id := by rw [hid, ← hc]
        rw [h2]
        exact List.mem_map.mpr ⟨v, hv, rfl⟩
      have hupd : updateTask rest t = rest := updateTask_eq_self hrest
      have hstep : updateTask (u :: rest) t = t :: rest := by
        simp only [updateTask, List.map_cons, if_pos hid]
        exact congrArg _ hupd
      rw [hstep]
      have hrem : removeFirst (t :: rest) t = rest := by
        simp [removeFirst]
      rw [hrem]
      constructor
      · rw [List.map_cons, hid, List.erase_cons_head]
      · intro v hv
        exact List.mem_cons_of_mem _ hv
    · have hne : u ≠ t := ne_of_id_ne hid
      have hmem2 : ∃ w ∈ rest, w.meta.id = t.meta.id := by
        rcases hmem with ⟨w, hw, hwid⟩
        rcases List.mem_cons.mp hw with h1 | h1
        · exfalso
          apply hid
          rw [← h1]
          exact hwid
        · exact ⟨w, h1, hwid⟩
      rcases ih hnodup.2 hmem2 with ⟨ih1, ih2⟩
      have hstep : updateTask (u :: rest) t = u :: updateTask rest t := by
        simp only [updateTask, List.map_cons, if_neg hid]
      rw [hstep]
      have hrem : removeFirst (u :: updateTask rest t) t =
          u :: removeFirst (updateTask rest t) t := by
        simp [removeFirst, hne]
      rw [hrem]
      constructor
      · rw [List.map_cons, List.map_cons, ih1]
        rw [List.erase_cons_tail (by simp [hid])]
      · intro v hv
        rcases List.mem_cons.mp hv with h1 | h1
        · rw [h1]; exact List.mem_cons_self _ _
        · exact List.mem_cons_of_mem _ (ih2 v h1)

/-- C3: a task selected by run_once whose deadline lies strictly in the past
goes directly to CANCELLED before any step executes: the outcome is the same
for every step hook (so the task never enters RUNNING and no step runs), the
emitted result carries state CANCELLED, tasks_cancelled is incremented, the
task is removed from the task list, and worker_queue_depth equals the new
list length. -/
theorem C3_deadline_cancel (env : Env) (hk : Hooks) (now : Int) (st : SchedState)
    (t : Task) (d : Int)
    (hsel : selectTask st = some t) (hdl : t.meta.deadline = some d) (hnow : d < now)
    (hsend : env.sendOk st.sendCount = true)
    (hnodup : (st.tasks.map (fun u => u.meta.id)).Nodup) :
    (run_once env hk now st).1 = none ∧
    (run_once env hk now st).2.emitted = st.emitted ++
      [{ type := MessageType.TASK_RESULT,
         payload := { id := t.meta.id, owner := t.meta.owner,
                      state := TaskState.CANCELLED, last_error := t.last_error } }] ∧
    (run_once env hk now st).2.metrics.tasks_cancelled.value
      = st.metrics.tasks_cancelled.value + 1 ∧
    ((run_once env hk now st).2.tasks.map (fun u => u.meta.id)) =
      (st.tasks.map (fun u => u.meta.id)).erase t.meta.id ∧
    (∀ v ∈ (run_once env hk now st).2.tasks, v.meta.id ≠ t.meta.id) ∧
    (∀ v ∈ (run_once env hk now st).2.tasks, v ∈ st.tasks) ∧
    (run_once env hk now st).2.metrics.worker_queue_depth.value
      = ((run_once env hk now st).2.tasks.length : Int) ∧
    run_once env hk now st = run_once env defaultHooks now st := by
  have hexp : deadlineExpired now t = true := by
    unfold deadlineExpired
    rw [hdl]
    simp [hnow]
  have key : ∀ hk2 : Hooks, run_once env hk2 now st =
      (none,
       { tasks := removeFirst (updateTask st.tasks { t with state := TaskState.CANCELLED })
           { t with state := TaskState.CANCELLED },
         emitted := st.emitted ++ [emitMsg { t with state := TaskState.CANCELLED }],
         sendCount := st.sendCount + 1,
         metrics := { st.metrics with
           tasks_cancelled := st.metrics.tasks_cancelled.inc 1,
           worker_queue_depth := st.metrics.worker_queue_depth.set
             (removeFirst (updateTask st.tasks { t with state := TaskState.CANCELLED })
               { t with state := TaskState.CANCELLED }).length },
         pool := st.pool }) := by
    intro hk2
    unfold run_once
    rw [hsel]
    simp only [hexp, if_true, emitResult, ipcSend, hsend]
  have hmemt : t ∈ st.tasks := (mem_readyOf.mp (pyMax_mem hsel)).1
  have hids := removeFirst_updateTask { t with state := TaskState.CANCELLED } st.tasks
    hnodup ⟨t, hmemt, rfl⟩
  rw [key hk]
  refine ⟨rfl, rfl, rfl, hids.1, ?_, hids.2, rfl, (key defaultHooks).symm⟩
  intro v hv hc
  have hvmem : v.meta.id ∈ (removeFirst (updateTask st.tasks
      { t with state := TaskState.CANCELLED })
      { t with state := TaskState.CANCELLED }).map (fun u => u.meta.id) :=
    List.mem_map.mpr ⟨v, hv, rfl⟩
  rw [hids.1, hc] at hvmem
  exact hnodup.not_mem_erase hvmem

/-- C3 witness: a task whose deadline (-1) is before now (0) is cancelled by
run_once: a CANCELLED result is emitted, the list empties, the counter and
the depth gauge move as claimed. -/
theorem C3_deadline_cancel_witness :
    (run_once { sendOk := fun _ => true, overrun := false } defaultHooks 0
      { tasks := [
          { meta := { id := 2, owner := "b", priority := 5, created_at := 3,
                      deadline := some (-1) },
            state := TaskState.PENDING, last_error := none }],
        emitted := [], sendCount := 0, metrics := Metrics.init,
        pool := MemoryPool.init 100 }).2.emitted =
      [{ type := MessageType.TASK_RESULT,
         payload := { id := 2, owner := "b",
                      state := TaskState.CANCELLED, last_error := none } }] ∧
    (run_once { sendOk := fun _ => true, overrun := false } defaultHooks 0
      { tasks := [
          { meta := { id := 2, owner := "b", priority := 5, created_at := 3,
                      deadline := some (-1) },
            state := TaskState.PENDING, last_error := none }],
        emitted := [], sendCount := 0, metrics := Metrics.init,
        pool := MemoryPool.init 100 }).2.metrics.tasks_cancelled.value = 1 := by
  have h := C3_deadline_cancel { sendOk := fun _ => true, overrun := false } defaultHooks 0
    { tasks := [
        { meta := { id := 2, owner := "b", priority := 5, created_at := 3,
                    deadline := some (-1) },
          state := TaskState.PENDING, last_error := none }],
      emitted := [], sendCount := 0, metrics := Metrics.init,
      pool := MemoryPool.init 100 }
    { meta := { id := 2, owner := "b", priority := 5, created_at := 3, deadline := some (-1) },
      state := TaskState.PENDING, last_error := none }
    (-1) (by rfl) (by rfl) (by decide) (by rfl) (by decide)
  exact ⟨h.2.1, h.2.2.1⟩

theorem finallyBlock_fields (env : Env) (st : SchedState) :
    (finallyBlock env st).tasks = st.tasks ∧
    (finallyBlock env st).emitted = st.emitted ∧
    (finallyBlock env st).sendCount = st.sendCount ∧
    (finallyBlock env st).pool = st.pool := by
  unfold finallyBlock
  rcases env.overrun with _ | _ <;> exact ⟨rfl, rfl, rfl, rfl⟩

/-- C7 counterexample: with a step hook that returns normally, leaves the
state at RUNNING, and a completion predicate that is false, the task stays
in the list in state RUNNING -- but a subsequent run_once selects nothing
and is a no-op, so the RUNNING task is NOT eligible for re-selection,
contradicting the claim. -/
theorem C7_counterexample :
    (run_once { sendOk := fun _ => true, overrun := false }
      { execStep := fun t => Except.ok (t.state, t.last_error), isComplete := fun _ => false } 0
      { tasks := [
          { meta := { id := 1, owner := "a", priority := 0, created_at := 0, deadline := none },
            state := TaskState.PENDING, last_error := none }],
        emitted := [], sendCount := 0, metrics := Metrics.init,
        pool := MemoryPool.init 100 }).2.tasks =
      [{ meta := { id := 1, owner := "a", priority := 0, created_at := 0, deadline := none },
         state := TaskState.RUNNING, last_error := none }] ∧
    (run_once { sendOk := fun _ => true, overrun := false }
      { execStep := fun t => Except.ok (t.state, t.last_error), isComplete := fun _ => false } 0
      { tasks := [
          { meta := { id := 1, owner := "a", priority := 0, created_at := 0, deadline := none },
            state := TaskState.PENDING, last_error := none }],
        emitted := [], sendCount := 0, metrics := Metrics.init,
        pool := MemoryPool.init 100 }).2.emitted = [] ∧
    selectTask (run_once { sendOk := fun _ => true, overrun := false }
      { execStep := fun t => Except.ok (t.state, t.last_error), isComplete := fun _ => false } 0
      { tasks := [
          { meta := { id := 1, owner := "a", priority := 0, created_at := 0, deadline := none },
            state := TaskState.PENDING, last_error := none }],
        emitted := [], sendCount := 0, metrics := Metrics.init,
        pool := MemoryPool.init 100 }).2 = none ∧
    run_once { sendOk := fun _ => true, overrun := false }
      { execStep := fun t => Except.ok (t.state, t.last_error), isComplete := fun _ => false } 0
      (run_once { sendOk := fun _ => true, overrun := false }
        { execStep := fun t => Except.ok (t.state, t.last_error), isComplete := fun _ => false } 0
        { tasks := [
            { meta := { id := 1, owner := "a", priority := 0, created_at := 0, deadline := none },
              state := TaskState.PENDING, last_error := none }],
          emitted := [], sendCount := 0, metrics := Metrics.init,
          pool := MemoryPool.init 100 }).2 =
      (none, (run_once { sendOk := fun _ => true, overrun := false }
        { execStep := fun t => Except.ok (t.state, t.last_error), isComplete := fun _ => false } 0
        { tasks := [
            { meta := { id := 1, owner := "a", priority := 0, created_at := 0, deadline := none },
              state := TaskState.PENDING, last_error := none }],
          emitted := [], sendCount := 0, metrics := Metrics.init,
          pool := MemoryPool.init 100 }).2) := by
  exact ⟨rfl, rfl, rfl, rfl⟩

/-- C7 amended: if the step hook returns normally and the completion
predicate is false, the task stays in the list in whatever state the hook
left it (RUNNING when the hook does not change it), no result is emitted --
but it is eligible for re-selection by a later run_once if and only if that
state is PENDING or WAITING; a task left in RUNNING is not re-selected, so
a multi-step task must park itself in WAITING inside the hook. -/
theorem C7_incomplete_task_amended (env : Env) (hk : Hooks) (now : Int) (st : SchedState)
    (t : Task) (s1 : TaskState) (e1 : Option String)
    (hsel : selectTask st = some t)
    (hdl : deadlineExpired now t = false)
    (hstep : hk.execStep { t with state := TaskState.RUNNING } = Except.ok (s1, e1))
    (hdone : hk.isComplete { t with state := s1, last_error := e1 } = false) :
    (run_once env hk now st).1 = none ∧
    (run_once env hk now st).2.tasks =
      updateTask st.tasks { t with state := s1, last_error := e1 } ∧
    ({ t with state := s1, last_error := e1 } : Task) ∈ (run_once env hk now st).2.tasks ∧
    (run_once env hk now st).2.emitted = st.emitted ∧
    (({ t with state := s1, last_error := e1 } : Task) ∈
        readyOf (run_once env hk now st).2.tasks ↔
      (s1 = TaskState.PENDING ∨ s1 = TaskState.WAITING)) := by
  have key : run_once env hk now st =
      (none, finallyBlock env
        { st with tasks := updateTask st.tasks { t with state := s1, last_error := e1 } }) := by
    unfold run_once
    rw [hsel]
    simp only [hdl, Bool.false_eq_true, if_false]
    unfold run_task_quantum quantumTry
    simp only [hstep, hdone, Bool.false_eq_true, if_false]
    rw [updateTask_updateTask st.tasks
      (show ({ t with state := TaskState.RUNNING } : Task).meta.id =
        ({ t with state := s1, last_error := e1 } : Task).meta.id from rfl)]
  have hmemt : t ∈ st.tasks := (mem_readyOf.mp (pyMax_mem hsel)).1
  have hfin := finallyBlock_fields env
    { st with tasks := updateTask st.tasks { t with state := s1, last_error := e1 } }
  have hmem2 : ({ t with state := s1, last_error := e1 } : Task) ∈
      updateTask st.tasks { t with state := s1, last_error := e1 } :=
    mem_updateTask_self _ hmemt rfl
  rw [key]
  refine ⟨rfl, hfin.1, ?_, hfin.2.1, ?_⟩
  · rw [hfin.1]; exact hmem2
  · rw [hfin.1, mem_readyOf]
    constructor
    · rintro ⟨_, h2⟩; exact h2
    · intro h2; exact ⟨hmem2, h2⟩

/-- C7 amended witness: a hook that parks the task in WAITING leaves it in
the list, unemitted, and eligible for re-selection. -/
theorem C7_incomplete_task_amended_witness :
    (run_once { sendOk := fun _ => true, overrun := false }
      { execStep := fun t => Except.ok (TaskState.WAITING, t.last_error),
        isComplete := fun t => t.state != TaskState.WAITING } 0
      { tasks := [
          { meta := { id := 1, owner := "a", priority := 0, created_at := 0, deadline := none },
            state := TaskState.PENDING, last_error := none }],
        emitted := [], sendCount := 0, metrics := Metrics.init,
        pool := MemoryPool.init 100 }).1 = none ∧
    ({ meta := { id := 1, owner := "a", priority := 0, created_at := 0, deadline := none },
       state := TaskState.WAITING, last_error := none } : Task) ∈
      (run_once { sendOk := fun _ => true, overrun := false }
        { execStep := fun t => Except.ok (TaskState.WAITING, t.last_error),
          isComplete := fun t => t.state != TaskState.WAITING } 0
        { tasks := [
            { meta := { id := 1, owner := "a", priority := 0, created_at := 0, deadline := none },
              state := TaskState.PENDING, last_error := none }],
          emitted := [], sendCount := 0, metrics := Metrics.init,
          pool := MemoryPool.init 100 }).2.tasks ∧
    (({ meta := { id := 1, owner := "a", priority := 0, created_at := 0, deadline := none },
        state := TaskState.WAITING, last_error := none } : Task) ∈
      readyOf (run_once { sendOk := fun _ => true, overrun := false }
        { execStep := fun t => Except.ok (TaskState.WAITING, t.last_error),
          isComplete := fun t => t.state != TaskState.WAITING } 0
        { tasks := [
            { meta := { id := 1, owner := "a", priority := 0, created_at := 0, deadline := none },
              state := TaskState.PENDING, last_error := none }],
          emitted := [], sendCount := 0, metrics := Metrics.init,
          pool := MemoryPool.init 100 }).2.tasks ↔
      (TaskState.WAITING = TaskState.PENDING ∨ TaskState.WAITING = TaskState.WAITING)) := by
  have h := C7_incomplete_task_amended { sendOk := fun _ => true, overrun := false }
    { execStep := fun t => Except.ok (TaskState.WAITING, t.last_error),
      isComplete := fun t => t.state != TaskState.WAITING } 0
    { tasks := [
        { meta := { id := 1, owner := "a", priority := 0, created_at := 0, deadline := none },
          state := TaskState.PENDING, last_error := none }],
      emitted := [], sendCount := 0, metrics := Metrics.init,
      pool := MemoryPool.init 100 }
    { meta := { id := 1, owner := "a", priority := 0, created_at := 0, deadline := none },
      state := TaskState.PENDING, last_error := none }
    TaskState.WAITING none (by rfl) (by rfl) (by rfl) (by rfl)
  exact ⟨h.1, h.2.2.1, h.2.2.2.2⟩

/-- C6 counterexample: on the DONE emission path the first result-queue send
raises IPCError, yet run_once returns normally (no exception propagates):
the failure is absorbed by the exception trap, the task is re-marked FAILED
with the send error recorded in last_error, and a second send emits a FAILED
result.  This refutes the claim that an IPCError on every emission path
propagates out of run_once without being absorbed into a task state
change. -/
theorem C6_counterexample :
    (run_once { sendOk := fun n => decide (0 < n), overrun := false } defaultHooks 0
      { tasks := [
          { meta := { id := 1, owner := "a", priority := 0, created_at := 0, deadline := none },
            state := TaskState.PENDING, last_error := none }],
        emitted := [], sendCount := 0, metrics := Metrics.init,
        pool := MemoryPool.init 100 }).1 = none ∧
    (run_once { sendOk := fun n => decide (0 < n), overrun := false } defaultHooks 0
      { tasks := [
          { meta := { id := 1, owner := "a", priority := 0, created_at := 0, deadline := none },
            state := TaskState.PENDING, last_error := none }],
        emitted := [], sendCount := 0, metrics := Metrics.init,
        pool := MemoryPool.init 100 }).2.emitted =
      [{ type := MessageType.TASK_RESULT,
         payload := { id := 1, owner := "a", state := TaskState.FAILED,
                      last_error := some "send failed" } }] ∧
    (run_once { sendOk := fun n => decide (0 < n), overrun := false } defaultHooks 0
      { tasks := [
          { meta := { id := 1, owner := "a", priority := 0, created_at := 0, deadline := none },
            state := TaskState.PENDING, last_error := none }],
        emitted := [], sendCount := 0, metrics := Metrics.init,
        pool := MemoryPool.init 100 }).2.tasks = [] := by
  exact ⟨rfl, rfl, rfl⟩

/-- C6 amended: an IPCError from the result-queue send propagates out of
run_once on the deadline-CANCELLED path and on the FAILED (step exception)
path; on the DONE path the first send failure is absorbed by the exception
trap -- the task transitions to FAILED with the send error recorded and a
second send is attempted -- so an IPCError propagates there only when that
second send fails too, and when the second send succeeds run_once returns
normally having emitted a FAILED result for the task. -/
theorem C6_emit_failure_amended (env : Env) (hk : Hooks) (now : Int) (st : SchedState)
    (t : Task) (hsel : selectTask st = some t) :
    (deadlineExpired now t = true → env.sendOk st.sendCount = false →
      ∃ e, (run_once env hk now st).1 = some e) ∧
    (deadlineExpired now t = false →
      ∀ msg, hk.execStep { t with state := TaskState.RUNNING } = Except.error msg →
      env.sendOk st.sendCount = false →
      ∃ e, (run_once env hk now st).1 = some e) ∧
    (deadlineExpired now t = false →
      ∀ s1 e1, hk.execStep { t with state := TaskState.RUNNING } = Except.ok (s1, e1) →
      hk.isComplete { t with state := s1, last_error := e1 } = true →
      env.sendOk st.sendCount = false → env.sendOk (st.sendCount + 1) = false →
      ∃ e, (run_once env hk now st).1 = some e) ∧
    (deadlineExpired now t = false →
      ∀ s1 e1, hk.execStep { t with state := TaskState.RUNNING } = Except.ok (s1, e1) →
      hk.isComplete { t with state := s1, last_error := e1 } = true →
      env.sendOk st.sendCount = false → env.sendOk (st.sendCount + 1) = true →
      (run_once env hk now st).1 = none ∧
      (run_once env hk now st).2.emitted = st.emitted ++
        [{ type := MessageType.TASK_RESULT,
           payload := { id := t.meta.id, owner := t.meta.owner,
                        state := TaskState.FAILED, last_error := some "send failed" } }]) := by
  refine ⟨?_, ?_, ?_, ?_⟩
  · intro hexp hfail
    unfold run_once
    rw [hsel]
    simp only [hexp, if_true, emitResult, ipcSend, hfail, Bool.false_eq_true, if_false]
    exact ⟨_, rfl⟩
  · intro hdl msg hstep hfail
    unfold run_once
    rw [hsel]
    simp only [hdl, Bool.false_eq_true, if_false]
    unfold run_task_quantum quantumTry
    simp only [hstep]
    unfold quantumExcept
    simp only [emitResult, ipcSend, hfail, Bool.false_eq_true, if_false]
    exact ⟨_, rfl⟩
  · intro hdl s1 e1 hstep hcomp hfail1 hfail2
    unfold run_once
    rw [hsel]
    simp only [hdl, Bool.false_eq_true, if_false]
    unfold run_task_quantum quantumTry
    simp only [hstep, hcomp, if_true]
    unfold quantumExcept
    simp only [emitResult, ipcSend, hfail1, hfail2, Bool.false_eq_true, if_false]
    exact ⟨_, rfl⟩
  · intro hdl s1 e1 hstep hcomp hfail1 hok2
    unfold run_once
    rw [hsel]
    simp only [hdl, Bool.false_eq_true, if_false]
    unfold run_task_quantum quantumTry
    simp only [hstep, hcomp, if_true]
    unfold quantumExcept
    simp only [emitResult, ipcSend, hfail1, hok2, Bool.false_eq_true, if_false, if_true]
    refine ⟨by trivial, ?_⟩
    rw [(finallyBlock_fields env _).2.1]
    rfl

/-- C6 amended witness: when the send on the deadline-CANCELLED path fails,
the IPCError propagates out of run_once. -/
theorem C6_emit_failure_amended_witness :
    ∃ e, (run_once { sendOk := fun _ => false, overrun := false } defaultHooks 0
      { tasks := [
          { meta := { id := 2, owner := "b", priority := 5, created_at := 3,
                      deadline := some (-1) },
            state := TaskState.PENDING, last_error := none }],
        emitted := [], sendCount := 0, metrics := Metrics.init,
        pool := MemoryPool.init 100 }).1 = some e := by
  exact (C6_emit_failure_amended { sendOk := fun _ => false, overrun := false } defaultHooks 0
    { tasks := [
        { meta := { id := 2, owner := "b", priority := 5, created_at := 3,
                    deadline := some (-1) },
          state := TaskState.PENDING, last_error := none }],
      emitted := [], sendCount := 0, metrics := Metrics.init,
      pool := MemoryPool.init 100 }
    { meta := { id := 2, owner := "b", priority := 5, created_at := 3, deadline := some (-1) },
      state := TaskState.PENDING, last_error := none }
    (by rfl)).1 (by rfl) (by rfl)

theorem ipcSend_pool (env : Env) (st : SchedState) (msg : Message) :
    (ipcSend env st msg).2.pool = st.pool := by
  unfold ipcSend
  split <;> rfl

theorem emitResult_pool (env : Env) (st : SchedState) (task : Task) :
    (emitResult env st task).2.pool = st.pool :=
  ipcSend_pool env st (emitMsg task)

theorem quantumExcept_pool (env : Env) (st : SchedState) (task : Task) (msg : String) :
    (quantumExcept env st task msg).2.pool = st.pool := by
  unfold quantumExcept
  dsimp only
  split
  next e st2 heq =>
    have h2 := congrArg (fun r => r.2.pool) heq
    dsimp only at h2
    rw [emitResult_pool] at h2
    exact h2.symm
  next st2 heq =>
    have h2 := congrArg (fun r => r.2.pool) heq
    dsimp only at h2
    rw [emitResult_pool] at h2
    exact h2.symm

theorem quantumTry_pool (env : Env) (hk : Hooks) (st : SchedState) (task : Task) :
    (quantumTry env hk st task).2.pool = st.pool := by
  unfold quantumTry
  dsimp only
  split
  next msg heq => exact quantumExcept_pool env _ _ msg
  next res heq =>
    split
    · split
      next st4 heq2 =>
        have h2 := congrArg (fun r => r.2.pool) heq2
        dsimp only at h2
        rw [emitResult_pool] at h2
        exact h2.symm
      next e st4 heq2 =>
        have h2 := congrArg (fun r => r.2.pool) heq2
        dsimp only at h2
        rw [emitResult_pool] at h2
        rw [quantumExcept_pool]
        exact h2.symm
    · rfl

theorem run_once_pool (env : Env) (hk : Hooks) (now : Int) (st : SchedState) :
    (run_once env hk now st).2.pool = st.pool := by
  unfold run_once
  split
  · rfl
  next task heq =>
    split
    · dsimp only
      split
      next e st3 heq2 =>
        have h2 := congrArg (fun r => r.2.pool) heq2
        dsimp only at h2
        rw [emitResult_pool] at h2
        exact h2.symm
      next st3 heq2 =>
        have h2 := congrArg (fun r => r.2.pool) heq2
        dsimp only at h2
        rw [emitResult_pool] at h2
        exact h2.symm
    · show (finallyBlock env (quantumTry env hk st task).2).pool = st.pool
      rw [(finallyBlock_fields env _).2.2.2]
      exact quantumTry_pool env hk st task

/-- C5: the claim that the scheduler automatically destroys the memory-pool
regions owned by a task when it reaches a terminal state is contradicted by
the code: run_once (hence every scheduling path, including DONE, FAILED and
CANCELLED) never touches the pool, even though the Scheduler docstring
promises that memory is freed automatically on DONE/FAILED.  First conjunct:
the pool after any run_once equals the pool before, for every environment,
hook and state.  Remaining conjuncts: a concrete run in which the task whose
id owns region r1 completes with a DONE result while r1 stays allocated and
used_bytes stays 64. -/
theorem C5_no_automatic_region_free :
    (∀ env hk now st, (run_once env hk now st).2.pool = st.pool) ∧
    (run_once { sendOk := fun _ => true, overrun := false } defaultHooks 0
      { tasks := [
          { meta := { id := 1, owner := "a", priority := 0, created_at := 0, deadline := none },
            state := TaskState.PENDING, last_error := none }],
        emitted := [], sendCount := 0, metrics := Metrics.init,
        pool := { max_bytes := 100, used_bytes := 64,
                  regions := [("r1",
                    { id := "r1", owner_task_id := "1", size := 64, read_only := false })],
                  storage := [("r1", List.replicate 64 0)] } }).2.emitted =
      [{ type := MessageType.TASK_RESULT,
         payload := { id := 1, owner := "a", state := TaskState.DONE,
                      last_error := none } }] ∧
    (run_once { sendOk := fun _ => true, overrun := false } defaultHooks 0
      { tasks := [
          { meta := { id := 1, owner := "a", priority := 0, created_at := 0, deadline := none },
            state := TaskState.PENDING, last_error := none }],
        emitted := [], sendCount := 0, metrics := Metrics.init,
        pool := { max_bytes := 100, used_bytes := 64,
                  regions := [("r1",
                    { id := "r1", owner_task_id := "1", size := 64, read_only := false })],
                  storage := [("r1", List.replicate 64 0)] } }).2.pool.regions =
      [("r1", { id := "r1", owner_task_id := "1", size := 64, read_only := false })] ∧
    (run_once { sendOk := fun _ => true, overrun := false } defaultHooks 0
      { tasks := [
          { meta := { id := 1, owner := "a", priority := 0, created_at := 0, deadline := none },
            state := TaskState.PENDING, last_error := none }],
        emitted := [], sendCount := 0, metrics := Metrics.init,
        pool := { max_bytes := 100, used_bytes := 64,
                  regions := [("r1",
                    { id := "r1", owner_task_id := "1", size := 64, read_only := false })],
                  storage := [("r1", List.replicate 64 0)] } }).2.pool.used_bytes = 64 := by
  exact ⟨fun env hk now st => run_once_pool env hk now st, rfl, rfl, rfl⟩

/-- C8: the Counter class documents itself as a monotonically increasing
counter, but Counter.inc accepts an arbitrary (signed) amount, so a negative
amount strictly decreases the observed value: from 0, inc(-1) yields -1. -/
theorem C8_counter_not_monotonic :
    ((Counter.mk 0).inc (-1)).value < (Counter.mk 0).value ∧
    ((Counter.mk 0).inc (-1)).value = -1 := by
  exact ⟨by decide, by decide⟩

theorem readyOf_all_pending {tasks : List Task}
    (h : ∀ u ∈ tasks, u.state = TaskState.PENDING) : readyOf tasks = tasks := by
  apply List.filter_eq_self.mpr
  intro a ha
  simp [h a ha]

theorem run_once_default_step (env : Env) (now : Int) (st : SchedState)
    (hrel : ∀ n, env.sendOk n = true)
    (hpend : ∀ u ∈ st.tasks, u.state = TaskState.PENDING)
    (hnodup : (st.tasks.map (fun u => u.meta.id)).Nodup)
    (hne : st.tasks ≠ []) :
    ∃ t ∈ st.tasks, ∃ m : Message,
      (run_once env defaultHooks now st).1 = none ∧
      (run_once env defaultHooks now st).2.emitted = st.emitted ++ [m] ∧
      m.type = MessageType.TASK_RESULT ∧ m.payload.id = t.meta.id ∧
      (m.payload.state = TaskState.DONE ∨ m.payload.state = TaskState.CANCELLED) ∧
      ((run_once env defaultHooks now st).2.tasks.map (fun u => u.meta.id)) =
        (st.tasks.map (fun u => u.meta.id)).erase t.meta.id ∧
      (∀ v ∈ (run_once env defaultHooks now st).2.tasks, v ∈ st.tasks) := by
  have hready : readyOf st.tasks = st.tasks := readyOf_all_pending hpend
  have hselsome : ∃ t, selectTask st = some t := by
    obtain ⟨a, rest, htasks⟩ := List.exists_cons_of_ne_nil hne
    refine ⟨rest.foldl pickMax a, ?_⟩
    unfold selectTask
    rw [hready, htasks]
    rfl
  rcases hselsome with ⟨t, hsel⟩
  have hmemt : t ∈ st.tasks := by
    have h1 : pyMax (readyOf st.tasks) = some t := hsel
    have h2 := pyMax_mem h1
    rw [hready] at h2
    exact h2
  have hsend : env.sendOk st.sendCount = true := hrel _
  rcases hdl : deadlineExpired now t with _ | _
  · -- deadline not expired: default quantum runs, the task completes as DONE
    have key : run_once env defaultHooks now st =
        (none, finallyBlock env
          { st with
            tasks := removeFirst (updateTask st.tasks { t with state := TaskState.DONE })
              { t with state := TaskState.DONE },
            emitted := st.emitted ++ [emitMsg { t with state := TaskState.DONE }],
            sendCount := st.sendCount + 1,
            metrics := { st.metrics with
              tasks_completed := st.metrics.tasks_completed.inc 1 } }) := by
      unfold run_once
      rw [hsel]
      simp only [hdl, Bool.false_eq_true, if_false]
      unfold run_task_quantum quantumTry
      simp only [defaultHooks, emitResult, ipcSend, hsend,
        show (TaskState.RUNNING != TaskState.WAITING) = true from rfl, if_true]
      rw [updateTask_updateTask st.tasks
        (show ({ t with state := TaskState.RUNNING } : Task).meta.id =
          ({ t with state := TaskState.RUNNING } : Task).meta.id from rfl)]
      rw [updateTask_updateTask st.tasks
        (show ({ t with state := TaskState.RUNNING } : Task).meta.id =
          ({ t with state := TaskState.DONE } : Task).meta.id from rfl)]
    have hids := removeFirst_updateTask { t with state := TaskState.DONE } st.tasks
      hnodup ⟨t, hmemt, rfl⟩
    have hfin := finallyBlock_fields env
      { st with
        tasks := removeFirst (updateTask st.tasks { t with state := TaskState.DONE })
          { t with state := TaskState.DONE },
        emitted := st.emitted ++ [emitMsg { t with state := TaskState.DONE }],
        sendCount := st.sendCount + 1,
        metrics := { st.metrics with
          tasks_completed := st.metrics.tasks_completed.inc 1 } }
    refine ⟨t, hmemt, emitMsg { t with state := TaskState.DONE }, ?_, ?_, rfl, rfl, Or.inl rfl, ?_, ?_⟩
    · rw [key]
    · rw [key]
      exact hfin.2.1
    · rw [key]
      show ((finallyBlock env _).tasks.map (fun u => u.meta.id)) = _
      rw [hfin.1]
      exact hids.1
    · intro v hv
      rw [key, hfin.1] at hv
      exact hids.2 v hv
  · -- deadline expired: the task is cancelled
    have key : ∀ hk2 : Hooks, run_once env hk2 now st =
        (none,
         { tasks := removeFirst (updateTask st.tasks { t with state := TaskState.CANCELLED })
             { t with state := TaskState.CANCELLED },
           emitted := st.emitted ++ [emitMsg { t with state := TaskState.CANCELLED }],
           sendCount := st.sendCount + 1,
           metrics := { st.metrics with
             tasks_cancelled := st.metrics.tasks_cancelled.inc 1,
             worker_queue_depth := st.metrics.worker_queue_depth.set
               (removeFirst (updateTask st.tasks { t with state := TaskState.CANCELLED })
                 { t with state := TaskState.CANCELLED }).length },
           pool := st.pool }) := by
      intro hk2
      unfold run_once
      rw [hsel]
      simp only [hdl, if_true, emitResult, ipcSend, hsend]
    have hids := removeFirst_updateTask { t with state := TaskState.CANCELLED } st.tasks
      hnodup ⟨t, hmemt, rfl⟩
    refine ⟨t, hmemt, emitMsg { t with state := TaskState.CANCELLED },
      ?_, ?_, rfl, rfl, Or.inr rfl, ?_, ?_⟩
    · rw [key defaultHooks]
    · rw [key defaultHooks]
    · rw [key defaultHooks]
      exact hids.1
    · intro v hv
      rw [key defaultHooks] at hv
      exact hids.2 v hv

theorem runN_default (env : Env) (hrel : ∀ n, env.sendOk n = true) :
    ∀ (nows : List Int) (st : SchedState),
      (∀ u ∈ st.tasks, u.state = TaskState.PENDING) →
      (st.tasks.map (fun u => u.meta.id)).Nodup →
      nows.length = st.tasks.length →
      (runN env defaultHooks nows st).tasks = [] ∧
      ∃ ms : List Message,
        (runN env defaultHooks nows st).emitted = st.emitted ++ ms ∧
        (ms.map (fun m => m.payload.id)).Perm (st.tasks.map (fun u => u.meta.id)) ∧
        ∀ m ∈ ms, m.type = MessageType.TASK_RESULT ∧
          (m.payload.state = TaskState.DONE ∨ m.payload.state = TaskState.CANCELLED) := by
  intro nows
  induction nows with
  | nil =>
    intro st hpend hnodup hlen
    have h0 : st.tasks = [] := List.eq_nil_of_length_eq_zero hlen.symm
    refine ⟨h0, [], ?_, ?_, ?_⟩
    · exact (List.append_nil _).symm
    · rw [h0]; rfl
    · intro m hm; cases hm
  | cons n rest ih =>
    intro st hpend hnodup hlen
    have hne : st.tasks ≠ [] := by
      intro h0
      rw [h0] at hlen
      cases hlen
    rcases run_once_default_step env n st hrel hpend hnodup hne with
      ⟨t, hmemt, m, herr, hemit, htype, hid, hstate, hids, hsub⟩
    have hidmem : t.meta.id ∈ st.tasks.map (fun u => u.meta.id) :=
      List.mem_map.mpr ⟨t, hmemt, rfl⟩
    have hstep : runN env defaultHooks (n :: rest) st =
        runN env defaultHooks rest (run_once env defaultHooks n st).2 := rfl
    have hpend1 : ∀ u ∈ (run_once env defaultHooks n st).2.tasks,
        u.state = TaskState.PENDING := fun u hu => hpend u (hsub u hu)
    have hnodup1 : ((run_once env defaultHooks n st).2.tasks.map (fun u => u.meta.id)).Nodup := by
      rw [hids]
      exact hnodup.erase _
    have hlen1 : rest.length = (run_once env defaultHooks n st).2.tasks.length := by
      have h1 : ((run_once env defaultHooks n st).2.tasks.map (fun u => u.meta.id)).length =
          ((st.tasks.map (fun u => u.meta.id)).erase t.meta.id).length := by rw [hids]
      simp only [List.length_map, List.length_erase_of_mem hidmem] at h1
      have h2 : st.tasks.length = rest.length + 1 := by
        rw [← hlen]; rfl
      omega
    rcases ih (run_once env defaultHooks n st).2 hpend1 hnodup1 hlen1 with
      ⟨hfin, ms1, hemit1, hperm1, hstates1⟩
    rw [hstep]
    refine ⟨hfin, m :: ms1, ?_, ?_, ?_⟩
    · rw [hemit1, hemit, List.append_assoc]
      rfl
    · rw [List.map_cons]
      have hp1 : (ms1.map (fun m2 => m2.payload.id)).Perm
          ((st.tasks.map (fun u => u.meta.id)).erase t.meta.id) := by
        rw [← hids]
        exact hperm1
      have hp2 := hp1.cons m.payload.id
      rw [hid]
      rw [hid] at hp2
      exact hp2.trans (List.perm_cons_erase hidmem).symm
    · intro m2 hm2
      rcases List.mem_cons.mp hm2 with h1 | h1
      · rw [h1]; exact ⟨htype, hstate⟩
      · exact hstates1 m2 h1

theorem enqueueAll_spec (subs : List (Payload × Nat × Int)) :
    ∀ st : SchedState,
      (subs.foldl (fun s q => enqueue_from_payload s q.1 q.2.1 q.2.2) st).tasks =
        st.tasks ++ subs.map (fun q =>
          ({ meta := { id := q.2.1, owner := q.1.owner, priority := q.1.priority,
                       created_at := q.2.2, deadline := q.1.deadline },
             state := TaskState.PENDING, last_error := none } : Task)) ∧
      (subs.foldl (fun s q => enqueue_from_payload s q.1 q.2.1 q.2.2) st).emitted =
        st.emitted := by
  induction subs with
  | nil => intro st; exact ⟨(List.append_nil _).symm, rfl⟩
  | cons q rest ih =>
    intro st
    rcases ih (enqueue_from_payload st q.1 q.2.1 q.2.2) with ⟨ih1, ih2⟩
    constructor
    · rw [List.foldl_cons, ih1]
      show st.tasks ++ [_] ++ _ = _
      rw [List.map_cons, List.append_assoc]
      rfl
    · rw [List.foldl_cons, ih2]
      rfl

/-- C1: with the default hooks of scheduler.py and a result queue whose
sends succeed, every task submitted through enqueue_from_payload (with
pairwise distinct fresh ids) yields, over one run_once call per task,
exactly one TASK_RESULT message carrying its id, and every emitted result
has a state in DONE, FAILED, CANCELLED -- never PENDING, RUNNING or
WAITING. -/
theorem C1_exactly_one_result (env : Env) (hrel : ∀ n, env.sendOk n = true)
    (memory_pool_bytes : Int)
    (subs : List (Payload × Nat × Int))
    (hids : (subs.map (fun q => q.2.1)).Nodup)
    (nows : List Int) (hlen : nows.length = subs.length) :
    (∀ q ∈ subs,
      ((runN env defaultHooks nows
        (subs.foldl (fun s q2 => enqueue_from_payload s q2.1 q2.2.1 q2.2.2)
          (initScheduler memory_pool_bytes))).emitted.filter
        (fun m => m.payload.id == q.2.1)).length = 1) ∧
    (∀ m ∈ (runN env defaultHooks nows
        (subs.foldl (fun s q2 => enqueue_from_payload s q2.1 q2.2.1 q2.2.2)
          (initScheduler memory_pool_bytes))).emitted,
      m.type = MessageType.TASK_RESULT ∧ terminalState m.payload.state ∧
      m.payload.state ≠ TaskState.PENDING ∧ m.payload.state ≠ TaskState.RUNNING ∧
      m.payload.state ≠ TaskState.WAITING) := by
  rcases enqueueAll_spec subs (initScheduler memory_pool_bytes) with ⟨htasks, hemit0⟩
  have htasks2 : (subs.foldl (fun s q2 => enqueue_from_payload s q2.1 q2.2.1 q2.2.2)
      (initScheduler memory_pool_bytes)).tasks = subs.map (fun q =>
        ({ meta := { id := q.2.1, owner := q.1.owner, priority := q.1.priority,
                     created_at := q.2.2, deadline := q.1.deadline },
           state := TaskState.PENDING, last_error := none } : Task)) := htasks
  have hidseq : ((subs.foldl (fun s q2 => enqueue_from_payload s q2.1 q2.2.1 q2.2.2)
      (initScheduler memory_pool_bytes)).tasks.map (fun u => u.meta.id)) =
      subs.map (fun q => q.2.1) := by
    rw [htasks2, List.map_map]
    rfl
  have hpend : ∀ u ∈ (subs.foldl (fun s q2 => enqueue_from_payload s q2.1 q2.2.1 q2.2.2)
      (initScheduler memory_pool_bytes)).tasks, u.state = TaskState.PENDING := by
    intro u hu
    rw [htasks2] at hu
    rcases List.mem_map.mp hu with ⟨q, _, rfl⟩
    rfl
  have hnodup : ((subs.foldl (fun s q2 => enqueue_from_payload s q2.1 q2.2.1 q2.2.2)
      (initScheduler memory_pool_bytes)).tasks.map (fun u => u.meta.id)).Nodup := by
    rw [hidseq]; exact hids
  have hlen2 : nows.length = (subs.foldl (fun s q2 => enqueue_from_payload s q2.1 q2.2.1 q2.2.2)
      (initScheduler memory_pool_bytes)).tasks.length := by
    rw [htasks2, List.length_map]
    exact hlen
  rcases runN_default env hrel nows _ hpend hnodup hlen2 with ⟨hfin, ms, hemit, hperm, hstates⟩
  have hemit2 : (runN env defaultHooks nows
      (subs.foldl (fun s q2 => enqueue_from_payload s q2.1 q2.2.1 q2.2.2)
        (initScheduler memory_pool_bytes))).emitted = ms := by
    rw [hemit, hemit0]
    rfl
  constructor
  · intro q hq
    rw [hemit2]
    have hcount : (ms.filter (fun m => m.payload.id == q.2.1)).length =
        (ms.map (fun m => m.payload.id)).count q.2.1 := by
      rw [List.count, List.countP_map, List.countP_eq_length_filter]
      rfl
    rw [hcount, hperm.count_eq, hidseq]
    exact List.count_eq_one_of_mem hids (List.mem_map.mpr ⟨q, hq, rfl⟩)
  · intro m hm
    rw [hemit2] at hm
    rcases hstates m hm with ⟨htype, hstate⟩
    refine ⟨htype, ?_, ?_, ?_, ?_⟩
    · rcases hstate with h1 | h1
      · exact Or.inl h1
      · exact Or.inr (Or.inr h1)
    · rcases hstate with h1 | h1 <;> rw [h1] <;> intro hc <;> cases hc
    · rcases hstate with h1 | h1 <;> rw [h1] <;> intro hc <;> cases hc
    · rcases hstate with h1 | h1 <;> rw [h1] <;> intro hc <;> cases hc

/-- C1 witness: two submitted tasks with ids 1 and 2, two run_once calls,
each id receives exactly one result. -/
theorem C1_exactly_one_result_witness :
    ((runN { sendOk := fun _ => true, overrun := false } defaultHooks [0, 0]
      ([({ owner := "a", priority := 1, deadline := none }, 1, 0),
        ({ owner := "b", priority := 9, deadline := none }, 2, 1)].foldl
        (fun s q2 => enqueue_from_payload s q2.1 q2.2.1 q2.2.2)
        (initScheduler 100))).emitted.filter (fun m => m.payload.id == 1)).length = 1 ∧
    ((runN { sendOk := fun _ => true, overrun := false } defaultHooks [0, 0]
      ([({ owner := "a", priority := 1, deadline := none }, 1, 0),
        ({ owner := "b", priority := 9, deadline := none }, 2, 1)].foldl
        (fun s q2 => enqueue_from_payload s q2.1 q2.2.1 q2.2.2)
        (initScheduler 100))).emitted.filter (fun m => m.payload.id == 2)).length = 1 := by
  have h := C1_exactly_one_result { sendOk := fun _ => true, overrun := false }
    (fun _ => rfl) 100
    [({ owner := "a", priority := 1, deadline := none }, 1, 0),
     ({ owner := "b", priority := 9, deadline := none }, 2, 1)]
    (by decide) [0, 0] (by rfl)
  exact ⟨h.1 _ (List.mem_cons_self _ _),
    h.1 _ (List.mem_cons_of_mem _ (List.mem_cons_self _ _))⟩

end Monolith
